import Mathlib

/-!
Verification of the Tab-Organizer session subsystem (capture, durable store,
restore, undo, retention).  The definitions below are a shallow embedding of
`src/utils/sessionManager.js` and the background service worker
(`src/unnamed/part_001`): asynchronous browser primitives become explicit
environment oracles, `chrome.storage.local` state becomes explicit list
arguments and results, and the live-environment side effects of restore and
undo are recorded as explicit event traces.
-/

namespace TabOrganizer

/-! ## JS string truthiness helpers -/

/-- JS `s || d` for a string `s`: the empty string is falsy. -/
def strOr (s d : String) : String := if s = "" then d else s

/-- JS `a || d` where `a` may be `undefined`: `none` and `""` are both falsy. -/
def optStrOr (a : Option String) (d : String) : String :=
  match a with
  | some s => strOr s d
  | none => d

/-! ## URL helpers -/

/-- `String.startsWith`, implemented over the character list so that concrete
instances evaluate by kernel reduction. -/
def strStartsWith (s p : String) : Bool := p.data.isPrefixOf s.data

/-- `String.drop` over the character list. -/
def strDrop (s : String) (n : Nat) : String := ⟨s.data.drop n⟩

/-- `String.takeWhile` over the character list. -/
def strTakeWhile (f : Char → Bool) (s : String) : String := ⟨s.data.takeWhile f⟩

/-- `String.dropWhile` over the character list. -/
def strDropWhile (f : Char → Bool) (s : String) : String := ⟨s.data.dropWhile f⟩

/-- ASCII lowercasing of one character (DNS hostnames are ASCII). -/
def charLower (c : Char) : Char :=
  if 65 ≤ c.toNat && c.toNat ≤ 90 then Char.ofNat (c.toNat + 32) else c

/-- ASCII `toLowerCase`, as applied by the URL parser to hostnames. -/
def strLower (s : String) : String := ⟨s.data.map charLower⟩

/-- A stored URL string passes the restore filter iff it is truthy and does not
use an internal scheme; mirrors `url && !url.startsWith('chrome://') &&
!url.startsWith('chrome-extension://')` (sessionManager.js line 323, and the
capture-side skip at line 81). -/
def restorableUrlStr (url : String) : Bool :=
  url != "" && !strStartsWith url "chrome://" && !strStartsWith url "chrome-extension://"

/-- Capture-side eligibility of a live tab URL (`!tab.url || ...` at
sessionManager.js line 81): an absent URL is skipped, otherwise the same
internal-scheme filter applies. -/
def eligibleCaptureUrl (url : Option String) : Bool :=
  match url with
  | some u => restorableUrlStr u
  | none => false

/-- Model of `normalizeUrl` (sessionManager.js lines 282-289): the platform URL
parser is modelled for plain http/https URLs without userinfo or port.  The
scheme and fragment are stripped, the hostname is lowercased, and
`hostname + pathname + search` is returned; a string that does not parse this
way is returned unchanged (the `catch` branch). -/
def normalizeUrl (url : String) : String :=
  let rest :=
    if strStartsWith url "https://" then some (strDrop url 8)
    else if strStartsWith url "http://" then some (strDrop url 7)
    else none
  match rest with
  | none => url
  | some r0 =>
    let r := strTakeWhile (fun c => c != '#') r0
    let host := strTakeWhile (fun c => c != '/' && c != '?') r
    if host = "" then url
    else
      let tail := strDrop r host.length
      let pathname :=
        if tail = "" then "/"
        else if strStartsWith tail "?" then "/"
        else strTakeWhile (fun c => c != '?') tail
      let search :=
        if strStartsWith tail "?" then tail
        else strDropWhile (fun c => c != '?') tail
      strLower host ++ pathname ++ search

/-! ## Live tabs and identity reconciliation -/

/-- A live tab as observed during restore: `url` may not have settled yet and
`pendingUrl` may be present while the tab is loading. -/
structure LiveTab where
  id : Nat
  url : Option String
  pendingUrl : Option String
  pinned : Bool
deriving DecidableEq

/-- `t.url || t.pendingUrl || ''` (sessionManager.js line 293). -/
def tabUrlOrPending (t : LiveTab) : String :=
  optStrOr t.url (optStrOr t.pendingUrl "")

/-- `findTabByUrl` (sessionManager.js lines 272-298): exact `url` match, then
`pendingUrl` match, then normalized match. -/
def findTabByUrl (tabs : List LiveTab) (targetUrl : String) : Option LiveTab :=
  match tabs.find? (fun t => t.url == some targetUrl) with
  | some tab => some tab
  | none =>
    match tabs.find? (fun t => t.pendingUrl == some targetUrl) with
    | some tab => some tab
    | none =>
      let normalizedTarget := normalizeUrl targetUrl
      tabs.find? (fun t => normalizeUrl (tabUrlOrPending t) == normalizedTarget)

/-! ## Snapshot model -/

structure TabRecord where
  url : String
  title : String
  pinned : Bool
  active : Bool
  originalGroupId : Option Nat
deriving DecidableEq

structure WindowRecord where
  id : Nat
  tabs : List TabRecord
deriving DecidableEq

structure GroupRecord where
  originalId : Nat
  title : String
  color : String
  collapsed : Bool
  tabUrls : List String
deriving DecidableEq

structure Session where
  id : String
  name : String
  timestamp : Nat
  windows : List WindowRecord
  groups : List GroupRecord
deriving DecidableEq

/-- Stable insertion into a timestamp-descending list: the element goes in
front of the first entry that is not strictly newer, so that among equal
timestamps the original order survives. -/
def insertByTsDesc (s : Session) : List Session → List Session
  | [] => [s]
  | t :: ts => if t.timestamp ≤ s.timestamp then s :: t :: ts else t :: insertByTsDesc s ts

/-- Stable sort by `timestamp` descending, the JS comparator
`(a, b) => b.timestamp - a.timestamp` (sessionManager.js line 175).
JS `Array.prototype.sort` is a stable sort; any stable sort by the same key
produces the same list, so a stable insertion sort models it. -/
def sortSessionsDesc : List Session → List Session
  | [] => []
  | s :: ss => insertByTsDesc s (sortSessionsDesc ss)

/-- `getAllSessions` (sessionManager.js lines 169-181) applied to the stored
list: returns the sessions sorted newest first. -/
def getAllSessions (stored : List Session) : List Session :=
  sortSessionsDesc stored

/-- `validateSession` (sessionManager.js lines 188-211).  The JS `typeof`
guards are enforced by the typed model; what remains is the
at-least-one-tab-or-one-group requirement. -/
def validateSession (s : Session) : Bool :=
  let hasTabs := s.windows.any (fun w => !w.tabs.isEmpty)
  hasTabs || !s.groups.isEmpty

/-! ## JSON serialization and the quota estimate -/

def hexDigit (n : Nat) : Char :=
  if n < 10 then Char.ofNat (48 + n) else Char.ofNat (87 + n)

/-- One character of `JSON.stringify` string escaping. -/
def jsonEscapeChar (c : Char) : String :=
  if c = '"' then "\\\""
  else if c = '\\' then "\\\\"
  else if c = '\n' then "\\n"
  else if c = '\r' then "\\r"
  else if c = '\t' then "\\t"
  else if c = Char.ofNat 8 then "\\b"
  else if c = Char.ofNat 12 then "\\f"
  else if c.toNat < 32 then
    "\\u00" ++ String.singleton (hexDigit (c.toNat / 16)) ++ String.singleton (hexDigit (c.toNat % 16))
  else String.singleton c

def jsonString (s : String) : String :=
  "\"" ++ String.join (s.data.map jsonEscapeChar) ++ "\""

def jsonBool (b : Bool) : String := if b then "true" else "false"

def jsonOptNat (o : Option Nat) : String :=
  match o with
  | some n => toString n
  | none => "null"

def jsonArr (elems : List String) : String :=
  "[" ++ String.intercalate "," elems ++ "]"

def jsonObj (fields : List String) : String :=
  "\x7b" ++ String.intercalate "," fields ++ "\x7d"

def jsonField (k v : String) : String := jsonString k ++ ":" ++ v

def tabRecordJson (t : TabRecord) : String :=
  jsonObj [jsonField "url" (jsonString t.url), jsonField "title" (jsonString t.title),
    jsonField "pinned" (jsonBool t.pinned), jsonField "active" (jsonBool t.active),
    jsonField "originalGroupId" (jsonOptNat t.originalGroupId)]

def windowRecordJson (w : WindowRecord) : String :=
  jsonObj [jsonField "id" (toString w.id),
    jsonField "tabs" (jsonArr (w.tabs.map tabRecordJson))]

def groupRecordJson (g : GroupRecord) : String :=
  jsonObj [jsonField "originalId" (toString g.originalId),
    jsonField "title" (jsonString g.title), jsonField "color" (jsonString g.color),
    jsonField "collapsed" (jsonBool g.collapsed),
    jsonField "tabUrls" (jsonArr (g.tabUrls.map jsonString))]

/-- `JSON.stringify(sessionData)` for a session in the shape produced by
`saveCurrentSession`, with keys in the JS object-literal order. -/
def sessionJson (s : Session) : String :=
  jsonObj [jsonField "id" (jsonString s.id), jsonField "name" (jsonString s.name),
    jsonField "timestamp" (toString s.timestamp),
    jsonField "windows" (jsonArr (s.windows.map windowRecordJson)),
    jsonField "groups" (jsonArr (s.groups.map groupRecordJson))]

/-- `STORAGE_QUOTA` (sessionManager.js line 8): 10 MiB. -/
def STORAGE_QUOTA : Nat := 10 * 1024 * 1024

/-- `estimateSessionSize` (sessionManager.js lines 34-40): serialized length
times 2, modelling a 16-bit-per-character encoding.  Lengths are counted in
characters, which coincides with UTF-16 code units for the BMP text this
extension stores. -/
def estimateSessionSize (sessionData : Session) : Nat :=
  (sessionJson sessionData).length * 2

inductive SaveError
  | quotaExceeded
deriving DecidableEq

/-- The storage-facing tail of `saveCurrentSession` (sessionManager.js lines
128-148): compare the size estimate against `STORAGE_QUOTA - bytesInUse`; on
overflow fail with a quota error and leave the stored list untouched,
otherwise append the snapshot.  The backing `chrome.storage.local.set` is
modelled as reliable. -/
def saveSessionData (stored : List Session) (sessionData : Session) (bytesInUse : Nat) :
    List Session × Option SaveError :=
  let available : Int := (STORAGE_QUOTA : Int) - (bytesInUse : Int)
  if (estimateSessionSize sessionData : Int) > available then
    (stored, some SaveError.quotaExceeded)
  else
    (stored ++ [sessionData], none)

/-! ## Capture engine -/

structure LiveCaptureTab where
  url : Option String
  title : Option String
  pinned : Bool
  active : Bool
  groupId : Option Nat
deriving DecidableEq

structure LiveWindow where
  id : Nat
  tabs : List LiveCaptureTab
deriving DecidableEq

/-- Group metadata as returned by `chrome.tabGroups.get`. -/
structure GroupMeta where
  id : Nat
  title : Option String
  color : Option String
  collapsed : Bool
deriving DecidableEq

/-- Environment adapter for capture: `getGroup gid` models
`chrome.tabGroups.get(gid)`, with `none` for a call that throws. -/
structure CaptureEnv where
  getGroup : Nat → Option GroupMeta

def eligibleTab (t : LiveCaptureTab) : Bool := eligibleCaptureUrl t.url

/-- The `tabData` object built at sessionManager.js lines 85-91. -/
def mkTabRecord (t : LiveCaptureTab) : TabRecord :=
  ⟨t.url.getD "", optStrOr t.title "Untitled", t.pinned, t.active, t.groupId⟩

/-- The fresh group entry built at sessionManager.js lines 100-106. -/
def mkGroupRecord (g : GroupMeta) : GroupRecord :=
  ⟨g.id, optStrOr g.title "Untitled Group", optStrOr g.color "grey", g.collapsed, []⟩

/-- The capture pass's `groupMap`: a JS `Map` in insertion order. -/
abbrev GroupMap := List (Nat × GroupRecord)

def mapGet : GroupMap → Nat → Option GroupRecord
  | [], _ => none
  | p :: m, k => if p.1 = k then some p.2 else mapGet m k

def mapAppendUrl (m : GroupMap) (k : Nat) (u : String) : GroupMap :=
  m.map (fun p =>
    if p.1 = k then
      (p.1, ⟨p.2.originalId, p.2.title, p.2.color, p.2.collapsed, p.2.tabUrls ++ [u]⟩)
    else p)

/-- Group-map accumulator threaded through the capture pass, together with the
trace of `chrome.tabGroups.get` calls issued (group ids, in call order). -/
structure GAcc where
  gmap : GroupMap
  trace : List Nat

/-- The memoized fetch of sessionManager.js lines 97-110: when the group id is
not yet in the map, call `chrome.tabGroups.get` (recorded in the trace); a
successful fetch inserts a fresh entry, a failed fetch inserts nothing. -/
def memoizeGroup (env : CaptureEnv) (g : GAcc) (gid : Nat) : GAcc :=
  if (mapGet g.gmap gid).isSome then g
  else
    match env.getGroup gid with
    | some gm => ⟨g.gmap ++ [(gid, mkGroupRecord gm)], g.trace ++ [gid]⟩
    | none => ⟨g.gmap, g.trace ++ [gid]⟩

/-- sessionManager.js lines 112-115: `if (groupInfo && tab.url)
groupInfo.tabUrls.push(tab.url)`. -/
def appendUrlStep (g1 : GAcc) (gid : Nat) (u : String) : GAcc :=
  match mapGet g1.gmap gid with
  | some _ => if u != "" then ⟨mapAppendUrl g1.gmap gid u, g1.trace⟩ else g1
  | none => g1

/-- Group bookkeeping for one eligible tab (sessionManager.js lines 96-116):
fetch-and-memoize the group's metadata if the id is not yet in the map, then
append the tab's URL to the entry's `tabUrls` when an entry exists. -/
def captureGroupStep (env : CaptureEnv) (g : GAcc) (t : LiveCaptureTab) : GAcc :=
  match t.groupId with
  | none => g
  | some gid => appendUrlStep (memoizeGroup env g gid) gid (t.url.getD "")

/-- The tab loop of `saveCurrentSession` (sessionManager.js lines 79-117):
skip ineligible tabs, record the rest, and thread the group map. -/
def captureTabs (env : CaptureEnv) (g : GAcc) : List LiveCaptureTab → List TabRecord × GAcc
  | [] => ([], g)
  | t :: ts =>
    if eligibleTab t then
      let r := captureTabs env (captureGroupStep env g t) ts
      (mkTabRecord t :: r.1, r.2)
    else captureTabs env g ts

/-- The window loop of `saveCurrentSession` (sessionManager.js lines 72-123):
a window contributing zero eligible tabs is not pushed. -/
def captureWindows (env : CaptureEnv) (g : GAcc) : List LiveWindow → List WindowRecord × GAcc
  | [] => ([], g)
  | w :: ws =>
    let r := captureTabs env g w.tabs
    let r2 := captureWindows env r.2 ws
    (if r.1.isEmpty then r2.1 else ⟨w.id, r.1⟩ :: r2.1, r2.2)

/-- The capture part of `saveCurrentSession` (sessionManager.js lines 59-126),
producing the `sessionData` object. -/
def captureSession (env : CaptureEnv) (name id : String) (timestamp : Nat)
    (ws : List LiveWindow) : Session :=
  let r := captureWindows env ⟨[], []⟩ ws
  ⟨id, name, timestamp, r.1, r.2.gmap.map (fun p => p.2)⟩

/-- The group-metadata fetches issued during one capture pass, in order. -/
def captureFetchTrace (env : CaptureEnv) (ws : List LiveWindow) : List Nat :=
  (captureWindows env ⟨[], []⟩ ws).2.trace

/-- `saveCurrentSession` end to end (sessionManager.js lines 48-163): capture,
then the quota-checked append into the stored snapshot list. -/
def saveCurrentSession (env : CaptureEnv) (name id : String) (timestamp : Nat)
    (ws : List LiveWindow) (stored : List Session) (bytesInUse : Nat) :
    List Session × Option SaveError :=
  saveSessionData stored (captureSession env name id timestamp ws) bytesInUse

/-! ## Restore engine -/

inductive RestoreError
  | sessionNotFound
  | invalidSession
  | restoreFailed
deriving DecidableEq

/-- Live-environment mutations performed by restore, in program order. -/
inductive Mutation
  | createdWindow (wid : Nat) (url : String)
  | createdTab (wid : Nat) (url : String)
  | pinnedTab (tid : Nat)
  | groupedTabs (wid : Nat) (tids : List Nat) (title color : String) (collapsed : Bool)
  | activatedTab (tid : Nat)
deriving DecidableEq

/-- Environment adapter for restore.  `createWindow` is keyed by the position
of the window record in the snapshot and returns the new live window id, or
`none` for a call that throws (which aborts the whole restore, line 333);
`createTab` failures are absorbed by the per-tab `.catch` (line 345);
`waitTabs` is the `waitForTabs` observation (lines 220-264, which never
throws); `queryTabs` is the post-pinning re-query (line 375), whose failure
aborts the restore. -/
structure RestoreEnv where
  createWindow : Nat → String → Option Nat
  createTab : Nat → String → Bool
  waitTabs : Nat → Nat → List LiveTab
  queryTabs : Nat → Option (List LiveTab)

/-- The per-window URL filter of `restoreSession` (sessionManager.js
lines 321-323). -/
def restorableTabUrls (wd : WindowRecord) : List String :=
  (wd.tabs.map (fun t => t.url)).filter restorableUrlStr

/-- Active-tab restoration (sessionManager.js lines 411-423): the first
`active` record that resolves to a live tab is activated, then the loop
breaks; records marked active that do not resolve are passed over. -/
def restoreActiveMut (tabs : List TabRecord) (updatedTabs : List LiveTab) : Option Mutation :=
  ((tabs.filterMap (fun t => if t.active then findTabByUrl updatedTabs t.url else none)).head?).map
    (fun ct => Mutation.activatedTab ct.id)

/-- One iteration of the window loop of `restoreSession` (sessionManager.js
lines 320-424).  Returns the mutations performed and whether the iteration
aborted the whole restore (window creation or the post-pin query throwing). -/
def restoreWindow (env : RestoreEnv) (idx : Nat) (groups : List GroupRecord)
    (wd : WindowRecord) : List Mutation × Bool :=
  match restorableTabUrls wd with
  | [] => ([], false)
  | firstUrl :: remainingUrls =>
    match env.createWindow idx firstUrl with
    | none => ([], true)
    | some wid =>
      let tabMuts := remainingUrls.filterMap (fun u =>
        if env.createTab wid u then some (Mutation.createdTab wid u) else none)
      let createdTabs := env.waitTabs wid (remainingUrls.length + 1)
      let pinMuts := wd.tabs.filterMap (fun t =>
        if t.pinned then (findTabByUrl createdTabs t.url).map (fun ct => Mutation.pinnedTab ct.id)
        else none)
      match env.queryTabs wid with
      | none => (Mutation.createdWindow wid firstUrl :: (tabMuts ++ pinMuts), true)
      | some updatedTabs =>
        let groupMuts := groups.filterMap (fun gd =>
          let ids := gd.tabUrls.filterMap (fun u =>
            match findTabByUrl updatedTabs u with
            | some mt => if mt.pinned then none else some mt.id
            | none => none)
          if ids.isEmpty then none
          else some (Mutation.groupedTabs wid ids (strOr gd.title "Restored Group")
            (strOr gd.color "grey") gd.collapsed))
        (Mutation.createdWindow wid firstUrl ::
          (tabMuts ++ pinMuts ++ groupMuts ++ (restoreActiveMut wd.tabs updatedTabs).toList),
          false)

/-- The window loop of `restoreSession`: an aborting iteration surfaces a
generic restore failure; a skipped window contributes nothing. -/
def restoreWindows (env : RestoreEnv) (groups : List GroupRecord) :
    List WindowRecord → Nat → List Mutation × Option RestoreError
  | [], _ => ([], none)
  | wd :: rest, idx =>
    let r := restoreWindow env idx groups wd
    if r.2 then (r.1, some RestoreError.restoreFailed)
    else
      let r2 := restoreWindows env groups rest (idx + 1)
      (r.1 ++ r2.1, r2.2)

/-- `restoreSession` (sessionManager.js lines 306-432): resolve the id in the
sorted stored list, validate, then run the window loop. -/
def restoreSession (stored : List Session) (env : RestoreEnv) (sessionId : String) :
    List Mutation × Option RestoreError :=
  let sessions := getAllSessions stored
  match sessions.find? (fun s => s.id == sessionId) with
  | none => ([], some RestoreError.sessionNotFound)
  | some session =>
    if validateSession session then restoreWindows env session.groups session.windows 0
    else ([], some RestoreError.invalidSession)

/-! ## Retention policy -/

/-- `s.name && s.name.startsWith('Recovery (')` for a typed name. -/
def isRecoveryName (nm : String) : Bool := strStartsWith nm "Recovery ("

/-- `cleanupRecoverySessions` (sessionManager.js lines 456-474) acting on the
stored snapshot list: read the list (sorted by `getAllSessions`), sort the
recovery-named ones newest first, and when more than `maxCount` remain write
back the sorted list minus the overflow; otherwise storage is not written and
keeps the original list. -/
def cleanupRecoverySessions (stored : List Session) (maxCount : Nat) : List Session :=
  let sessions := getAllSessions stored
  let recoverySessions := sortSessionsDesc (sessions.filter (fun s => isRecoveryName s.name))
  if maxCount < recoverySessions.length then
    let toDelete := recoverySessions.drop maxCount
    sessions.filter (fun s => !(toDelete.any (fun ds => ds.id == s.id)))
  else stored

/-! ## Undo stack -/

structure UndoTabState where
  id : Nat
  url : Option String
  title : Option String
  groupId : Option Nat
  index : Nat
deriving DecidableEq

structure UndoGroupState where
  id : Nat
  title : Option String
  color : Option String
  collapsed : Bool
  tabIds : List Nat
deriving DecidableEq

structure UndoWindowState where
  id : Nat
  tabs : List UndoTabState
  groups : List UndoGroupState
deriving DecidableEq

/-- The `previousGroups` payload captured by `saveUndoState`. -/
structure UndoState where
  windows : List UndoWindowState
deriving DecidableEq

structure UndoEntry where
  type : String
  timestamp : Nat
  previousGroups : UndoState
deriving DecidableEq

/-- The push step of `saveUndoState` (sessionManager.js lines 1298-1308 and
the inline variant at part_001 lines 391-395): append, then shift the oldest
entry off when the history exceeds 20. -/
def pushUndo (history : List UndoEntry) (e : UndoEntry) : List UndoEntry :=
  let h := history ++ [e]
  if 20 < h.length then h.tail else h

/-- A live tab as observed during undo replay: `grouped` is
`tab.groupId !== chrome.tabs.TAB_ID_NONE`. -/
structure UndoLiveTab where
  id : Nat
  url : Option String
  grouped : Bool
deriving DecidableEq

/-- Environment adapter for undo replay.  `getWindow` is
`chrome.windows.get(id).catch(() => null)` (does the window still exist);
`queryTabs wid k` is the `k`-th `chrome.tabs.query` issued for that window
during the replay, with `none` for a query that throws (which aborts the
undo through the outer catch). -/
structure UndoEnv where
  getWindow : Nat → Bool
  queryTabs : Nat → Nat → Option (List UndoLiveTab)

/-- Live-environment and storage effects of `performUndo`, in program order. -/
inductive UndoEvent
  | setHistory (h : List UndoEntry)
  | ungroupedTab (tid : Nat)
  | groupedTabs (tids : List Nat) (title : Option String) (color : Option String) (collapsed : Bool)
deriving DecidableEq

def UndoEvent.isSetHistory : UndoEvent → Bool
  | setHistory _ => true
  | _ => false

/-- Recreating one recorded group (sessionManager.js lines 1348-1377): each
recorded tab id is tried against the live tabs first, falling back to the
recorded tab's URL; a group resolving to no live tab is skipped. -/
def undoGroupEvents (existingTabs : List UndoLiveTab) (savedTabs : List UndoTabState)
    (g : UndoGroupState) : List UndoEvent :=
  let tabsToGroup := g.tabIds.filterMap (fun savedTabId =>
    match existingTabs.find? (fun t => t.id == savedTabId) with
    | some t => some t.id
    | none =>
      match savedTabs.find? (fun t => t.id == savedTabId) with
      | some savedTab =>
        (existingTabs.find? (fun t => t.url == savedTab.url)).map (fun t => t.id)
      | none => none)
  if tabsToGroup.isEmpty then []
  else [UndoEvent.groupedTabs tabsToGroup g.title g.color g.collapsed]

/-- The per-group replay loop: each group re-queries the window's tabs. -/
def undoWindowGroups (env : UndoEnv) (wid : Nat) (savedTabs : List UndoTabState) :
    List UndoGroupState → Nat → List UndoEvent × Bool
  | [], _ => ([], false)
  | g :: gs, callIdx =>
    match env.queryTabs wid callIdx with
    | none => ([], true)
    | some existingTabs =>
      let evs := undoGroupEvents existingTabs savedTabs g
      let r := undoWindowGroups env wid savedTabs gs (callIdx + 1)
      (evs ++ r.1, r.2)

/-- Replay of one recorded window (sessionManager.js lines 1331-1378): skip a
window that no longer exists, ungroup every currently grouped tab, then
recreate the recorded groups. -/
def undoWindow (env : UndoEnv) (ws : UndoWindowState) : List UndoEvent × Bool :=
  if env.getWindow ws.id then
    match env.queryTabs ws.id 0 with
    | none => ([], true)
    | some currentTabs =>
      let ungroupEvs := currentTabs.filterMap (fun t =>
        if t.grouped then some (UndoEvent.ungroupedTab t.id) else none)
      let r := undoWindowGroups env ws.id ws.tabs ws.groups 1
      (ungroupEvs ++ r.1, r.2)
  else ([], false)

def undoWindowsList (env : UndoEnv) : List UndoWindowState → List UndoEvent × Bool
  | [] => ([], false)
  | w :: rest =>
    let r := undoWindow env w
    if r.2 then (r.1, true)
    else
      let r2 := undoWindowsList env rest
      (r.1 ++ r2.1, r2.2)

structure UndoResult where
  events : List UndoEvent
  success : Bool
  storedHistory : List UndoEntry
deriving DecidableEq

/-- `performUndo` (sessionManager.js lines 1318-1388, matching
`undoLastActionInline` at part_001 lines 477-495): on a non-empty history the
last entry is popped and the shortened history is written back to storage
before any replay step runs; a replay failure surfaces as `success = false`
but the pop has already been persisted. -/
def performUndo (history : List UndoEntry) (env : UndoEnv) : UndoResult :=
  match history.getLast? with
  | none => ⟨[], false, history⟩
  | some lastState =>
    let shortened := history.dropLast
    let r := undoWindowsList env lastState.previousGroups.windows
    ⟨UndoEvent.setHistory shortened :: r.1, !r.2, shortened⟩

/-! ## Derived characterizations used by the theorems -/

/-- The record a single live tab contributes to its WindowRecord, if any. -/
def captureTabRecord? (t : LiveCaptureTab) : Option TabRecord :=
  if eligibleTab t then some (mkTabRecord t) else none

/-- Specification-level per-window capture: the eligible tabs, in order. -/
def capturedWindowRecord (w : LiveWindow) : WindowRecord :=
  ⟨w.id, w.tabs.filterMap captureTabRecord?⟩

/-- The URLs of the eligible member tabs of group `gid` in one tab list, in
order. -/
def tabMemberUrls (ts : List LiveCaptureTab) (gid : Nat) : List String :=
  (ts.filter eligibleTab).filterMap (fun t => if t.groupId = some gid then t.url else none)

/-- The URLs of all eligible member tabs of group `gid`, across all windows in
enumeration order. -/
def memberUrls (ws : List LiveWindow) (gid : Nat) : List String :=
  (ws.map (fun w => tabMemberUrls w.tabs gid)).flatten

/-- How one capture segment contributing `urls` for group `gid` transforms
that group's map entry: an existing entry accumulates the URLs; a missing
entry is created from a successful metadata fetch when there is at least one
member URL. -/
def extendEntry (env : CaptureEnv) (prev : Option GroupRecord) (gid : Nat)
    (urls : List String) : Option GroupRecord :=
  match prev with
  | some gr => some ⟨gr.originalId, gr.title, gr.color, gr.collapsed, gr.tabUrls ++ urls⟩
  | none =>
    if urls = [] then none
    else (env.getGroup gid).map (fun gm =>
      ⟨gm.id, optStrOr gm.title "Untitled Group", optStrOr gm.color "grey", gm.collapsed, urls⟩)

/-- All URLs accumulated in the group map are restorable. -/
def RestMap (m : GroupMap) : Prop :=
  ∀ p ∈ m, ∀ v ∈ p.2.tabUrls, restorableUrlStr v = true

/-- Invariant tying the fetch trace to the memoization map: the trace has no
duplicate group ids and every traced id is present in the map. -/
def TraceInv (g : GAcc) : Prop :=
  g.trace.Nodup ∧ ∀ gid ∈ g.trace, (mapGet g.gmap gid).isSome = true

/-! ## Theorems -/

/-- C1: for every stored snapshot list and snapshot, the store estimates the
serialized size as the JSON string length times 2 and, when the estimate
exceeds `quota - bytesInUse`, `put` fails with the quota error and the stored
list is unchanged. -/
theorem claim1_put_quota_exceeded (stored : List Session) (snap : Session) (bytesInUse : Nat)
    (h : (estimateSessionSize snap : Int) > (STORAGE_QUOTA : Int) - (bytesInUse : Int)) :
    estimateSessionSize snap = (sessionJson snap).length * 2 ∧
    saveSessionData stored snap bytesInUse = (stored, some SaveError.quotaExceeded) := by
  refine ⟨rfl, ?_⟩
  simp only [saveSessionData, if_pos h]

/-- Witness for C1 at the spec's scenario shape: `bytesInUse = quota - 10` and
a concrete snapshot whose estimate exceeds the 10 remaining bytes. -/
theorem claim1_witness :
    ((estimateSessionSize ⟨"1", "s", 0, [], []⟩ : Int) >
      (STORAGE_QUOTA : Int) - ((STORAGE_QUOTA - 10 : Nat) : Int)) ∧
    saveSessionData [] ⟨"1", "s", 0, [], []⟩ (STORAGE_QUOTA - 10) =
      ([], some SaveError.quotaExceeded) :=
  ⟨by decide, (claim1_put_quota_exceeded [] ⟨"1", "s", 0, [], []⟩ (STORAGE_QUOTA - 10)
    (by decide)).2⟩

lemma pushUndo_length_le (h : List UndoEntry) (e : UndoEntry) (hh : h.length ≤ 20) :
    (pushUndo h e).length ≤ 20 := by
  simp only [pushUndo]
  split
  · simp only [List.length_tail, List.length_append, List.length_singleton]
    omega
  · rename_i hle
    simp only [List.length_append, List.length_singleton] at hle ⊢
    omega

lemma foldl_pushUndo_drop (es : List UndoEntry) :
    es.foldl pushUndo [] = es.drop (es.length - 20) := by
  induction es using List.reverseRecOn with
  | nil => rfl
  | append_singleton es e ih =>
    rw [List.foldl_append, ih]
    simp only [List.foldl_cons, List.foldl_nil]
    by_cases hlt : es.length < 20
    · have h0 : es.length - 20 = 0 := by omega
      have h1 : (es ++ [e]).length - 20 = 0 := by
        simp only [List.length_append, List.length_singleton]; omega
      rw [h0, h1, List.drop_zero, List.drop_zero]
      simp only [pushUndo]
      have hnot : ¬ 20 < (es ++ [e]).length := by
        simp only [List.length_append, List.length_singleton]; omega
      rw [if_neg hnot]
    · have hge : 20 ≤ es.length := by omega
      have hdlen : (es.drop (es.length - 20)).length = 20 := by
        simp only [List.length_drop]; omega
      simp only [pushUndo]
      have hgt : 20 < (es.drop (es.length - 20) ++ [e]).length := by
        simp only [List.length_append, List.length_singleton, hdlen]
        omega
      rw [if_pos hgt, ← List.drop_one,
        List.drop_append_of_le_length (by rw [hdlen]; omega), List.drop_drop,
        List.drop_append_of_le_length
          (by simp only [List.length_append, List.length_singleton]; omega)]
      have harith : (es ++ [e]).length - 20 = es.length - 20 + 1 := by
        simp only [List.length_append, List.length_singleton]; omega
      rw [harith]

/-- C3: the undo history is bounded by 20 entries; pushing 25 entries onto an
empty history leaves exactly the most recent 20, oldest evicted first. -/
theorem claim3_undo_bound :
    (∀ (h : List UndoEntry) (e : UndoEntry), h.length ≤ 20 → (pushUndo h e).length ≤ 20) ∧
    (∀ es : List UndoEntry, es.length = 25 → es.foldl pushUndo [] = es.drop 5) := by
  constructor
  · exact pushUndo_length_le
  · intro es h25
    rw [foldl_pushUndo_drop, h25]

/-- Witness for C3: a concrete sequence of 25 entries pushed onto the empty
history leaves entries 5 through 24. -/
theorem claim3_witness :
    (pushUndo [] ⟨"a", 0, ⟨[]⟩⟩).length ≤ 20 ∧
    ((List.range 25).map (fun n => (⟨"a", n, ⟨[]⟩⟩ : UndoEntry))).foldl pushUndo [] =
      ((List.range 25).map (fun n => (⟨"a", n, ⟨[]⟩⟩ : UndoEntry))).drop 5 :=
  ⟨claim3_undo_bound.1 [] ⟨"a", 0, ⟨[]⟩⟩ (by decide),
    claim3_undo_bound.2 _ (by decide)⟩

lemma find?_of_exists {α : Type} {p : α → Bool} {l : List α} (h : ∃ x ∈ l, p x = true) :
    ∃ a, l.find? p = some a ∧ p a = true := by
  have hs : (l.find? p).isSome = true := List.find?_isSome.mpr h
  cases hfind : l.find? p with
  | none => rw [hfind] at hs; simp at hs
  | some a => exact ⟨a, rfl, List.find?_some hfind⟩

/-- C6: `findTabByUrl` follows the three-tier fallback chain: an exact `url`
match if one exists, otherwise a `pendingUrl` match, otherwise a normalized
match, otherwise no match. -/
theorem claim6_find_tab_fallback (tabs : List LiveTab) (target : String) :
    ((∃ t ∈ tabs, t.url = some target) →
      ∃ t, findTabByUrl tabs target = some t ∧ t.url = some target) ∧
    ((∀ t ∈ tabs, t.url ≠ some target) → (∃ t ∈ tabs, t.pendingUrl = some target) →
      ∃ t, findTabByUrl tabs target = some t ∧ t.pendingUrl = some target) ∧
    ((∀ t ∈ tabs, t.url ≠ some target) → (∀ t ∈ tabs, t.pendingUrl ≠ some target) →
      (∃ t ∈ tabs, normalizeUrl (tabUrlOrPending t) = normalizeUrl target) →
      ∃ t, findTabByUrl tabs target = some t ∧
        normalizeUrl (tabUrlOrPending t) = normalizeUrl target) ∧
    ((∀ t ∈ tabs, t.url ≠ some target ∧ t.pendingUrl ≠ some target ∧
        normalizeUrl (tabUrlOrPending t) ≠ normalizeUrl target) →
      findTabByUrl tabs target = none) := by
  refine ⟨?_, ?_, ?_, ?_⟩
  · intro hex
    obtain ⟨a, hfind, hp⟩ := find?_of_exists (p := fun t : LiveTab => t.url == some target)
      (l := tabs) (by obtain ⟨x, hx, hpx⟩ := hex; exact ⟨x, hx, by simp [hpx]⟩)
    refine ⟨a, ?_, by simpa using hp⟩
    simp only [findTabByUrl, hfind]
  · intro hnone hex
    have h1 : tabs.find? (fun t => t.url == some target) = none :=
      List.find?_eq_none.mpr (fun x hx => by simpa using hnone x hx)
    obtain ⟨a, hfind, hp⟩ := find?_of_exists (p := fun t : LiveTab => t.pendingUrl == some target)
      (l := tabs) (by obtain ⟨x, hx, hpx⟩ := hex; exact ⟨x, hx, by simp [hpx]⟩)
    refine ⟨a, ?_, by simpa using hp⟩
    simp only [findTabByUrl, h1, hfind]
  · intro hnone hnone2 hex
    have h1 : tabs.find? (fun t => t.url == some target) = none :=
      List.find?_eq_none.mpr (fun x hx => by simpa using hnone x hx)
    have h2 : tabs.find? (fun t => t.pendingUrl == some target) = none :=
      List.find?_eq_none.mpr (fun x hx => by simpa using hnone2 x hx)
    obtain ⟨a, hfind, hp⟩ := find?_of_exists
      (p := fun t : LiveTab => normalizeUrl (tabUrlOrPending t) == normalizeUrl target)
      (l := tabs) (by obtain ⟨x, hx, hpx⟩ := hex; exact ⟨x, hx, by simp [hpx]⟩)
    refine ⟨a, ?_, by simpa using hp⟩
    simp only [findTabByUrl, h1, h2, hfind]
  · intro hall
    have h1 : tabs.find? (fun t => t.url == some target) = none :=
      List.find?_eq_none.mpr (fun x hx => by simpa using (hall x hx).1)
    have h2 : tabs.find? (fun t => t.pendingUrl == some target) = none :=
      List.find?_eq_none.mpr (fun x hx => by simpa using (hall x hx).2.1)
    have h3 : tabs.find? (fun t => normalizeUrl (tabUrlOrPending t) == normalizeUrl target) = none :=
      List.find?_eq_none.mpr (fun x hx => by simpa using (hall x hx).2.2)
    simp only [findTabByUrl, h1, h2, h3]

/-- Witness for C6 at the spec's scenario: a record URL matches a live tab
whose `pendingUrl` equals it when no live tab has a settled equal `url`. -/
theorem claim6_witness :
    (∀ t ∈ [(⟨1, none, some "https://example.com/a", false⟩ : LiveTab)],
      t.url ≠ some "https://example.com/a") ∧
    (∃ t ∈ [(⟨1, none, some "https://example.com/a", false⟩ : LiveTab)],
      t.pendingUrl = some "https://example.com/a") ∧
    (∃ t, findTabByUrl [(⟨1, none, some "https://example.com/a", false⟩ : LiveTab)]
        "https://example.com/a" = some t ∧ t.pendingUrl = some "https://example.com/a") :=
  ⟨by decide, by decide,
    (claim6_find_tab_fallback [⟨1, none, some "https://example.com/a", false⟩]
      "https://example.com/a").2.1 (by decide) (by decide)⟩

lemma insertByTsDesc_perm (s : Session) (l : List Session) :
    (insertByTsDesc s l).Perm (s :: l) := by
  induction l with
  | nil => exact List.Perm.refl _
  | cons t ts ih =>
    rw [insertByTsDesc]
    split
    · exact List.Perm.refl _
    · exact (List.Perm.cons t ih).trans (List.Perm.swap s t ts)

lemma sortSessionsDesc_perm (l : List Session) : (sortSessionsDesc l).Perm l := by
  induction l with
  | nil => exact List.Perm.refl _
  | cons s ss ih =>
    rw [sortSessionsDesc]
    exact (insertByTsDesc_perm s (sortSessionsDesc ss)).trans (List.Perm.cons s ih)

lemma sortSessionsDesc_length (l : List Session) : (sortSessionsDesc l).length = l.length :=
  (sortSessionsDesc_perm l).length_eq

lemma insertByTsDesc_sorted {s : Session} {l : List Session}
    (h : List.Pairwise (fun a b : Session => b.timestamp ≤ a.timestamp) l) :
    List.Pairwise (fun a b : Session => b.timestamp ≤ a.timestamp) (insertByTsDesc s l) := by
  induction l with
  | nil => simp [insertByTsDesc]
  | cons t ts ih =>
    rw [insertByTsDesc]
    rw [List.pairwise_cons] at h
    split
    · rename_i hts
      rw [List.pairwise_cons]
      refine ⟨?_, List.pairwise_cons.mpr h⟩
      intro y hy
      rcases List.mem_cons.mp hy with rfl | hy
      · exact hts
      · exact le_trans (h.1 y hy) hts
    · rename_i hts
      rw [List.pairwise_cons]
      refine ⟨?_, ih h.2⟩
      intro y hy
      have hy' := (insertByTsDesc_perm s ts).mem_iff.mp hy
      rcases List.mem_cons.mp hy' with rfl | hy'
      · omega
      · exact h.1 y hy'

lemma sortSessionsDesc_sorted (l : List Session) :
    List.Pairwise (fun a b : Session => b.timestamp ≤ a.timestamp) (sortSessionsDesc l) := by
  induction l with
  | nil => simp [sortSessionsDesc]
  | cons s ss ih =>
    rw [sortSessionsDesc]
    exact insertByTsDesc_sorted ih

lemma recovery_length_eq (stored : List Session) :
    (sortSessionsDesc ((sortSessionsDesc stored).filter
      (fun s => isRecoveryName s.name))).length
      = stored.countP (fun s => isRecoveryName s.name) := by
  rw [sortSessionsDesc_length, ← List.countP_eq_length_filter,
    (sortSessionsDesc_perm stored).countP_eq]

lemma cleanup_eq_self_of_le (stored : List Session) (n : Nat)
    (h : stored.countP (fun s => isRecoveryName s.name) ≤ n) :
    cleanupRecoverySessions stored n = stored := by
  have h' : ¬ n < (sortSessionsDesc ((sortSessionsDesc stored).filter
      (fun s => isRecoveryName s.name))).length := by
    rw [recovery_length_eq]; omega
  simp only [cleanupRecoverySessions, getAllSessions]
  rw [if_neg h']

lemma cleanup_eq_filter (stored : List Session) (n : Nat)
    (hlt : n < (sortSessionsDesc ((sortSessionsDesc stored).filter
      (fun s => isRecoveryName s.name))).length) :
    cleanupRecoverySessions stored n =
      (sortSessionsDesc stored).filter (fun s =>
        !(((sortSessionsDesc ((sortSessionsDesc stored).filter
            (fun s => isRecoveryName s.name))).drop n).any
          (fun ds => ds.id == s.id))) := by
  simp only [cleanupRecoverySessions, getAllSessions]
  rw [if_pos hlt]

lemma cleanup_countP_le (stored : List Session) (n : Nat)
    (hlt : n < (sortSessionsDesc ((sortSessionsDesc stored).filter
      (fun s => isRecoveryName s.name))).length) :
    (cleanupRecoverySessions stored n).countP (fun s => isRecoveryName s.name) ≤ n := by
  rw [cleanup_eq_filter stored n hlt]
  set m : Session → Bool := fun s => isRecoveryName s.name with hm
  set recovery := sortSessionsDesc ((sortSessionsDesc stored).filter m) with hrec
  set pred : Session → Bool := fun s => !((recovery.drop n).any (fun ds => ds.id == s.id))
    with hpred
  rw [List.countP_eq_length_filter, List.filter_filter]
  have hcomm : (sortSessionsDesc stored).filter (fun a => m a && pred a)
      = ((sortSessionsDesc stored).filter m).filter pred := by
    rw [List.filter_filter]
    exact List.filter_congr (fun a _ => Bool.and_comm (m a) (pred a))
  rw [hcomm]
  have hperm : (((sortSessionsDesc stored).filter m).filter pred).length
      = (recovery.filter pred).length :=
    ((sortSessionsDesc_perm _).symm.filter pred).length_eq
  rw [hperm]
  have hsplit : recovery.filter pred
      = (recovery.take n).filter pred ++ (recovery.drop n).filter pred := by
    conv_lhs => rw [← List.take_append_drop n recovery]
    rw [List.filter_append]
  have hdrop : (recovery.drop n).filter pred = [] := by
    rw [List.filter_eq_nil_iff]
    intro ds hds
    have hany : (recovery.drop n).any (fun d => d.id == ds.id) = true :=
      List.any_eq_true.mpr ⟨ds, hds, by simp⟩
    simp [hpred, hany]
  rw [hsplit, hdrop, List.append_nil]
  refine le_trans (List.length_filter_le pred _) ?_
  rw [List.length_take]
  omega

/-- C7: retention is idempotent — for every stored snapshot list, pruning the
"Recovery (" family to 3 and pruning again leaves the list of the first run
unchanged; the second call removes nothing. -/
theorem claim7_cleanup_idempotent (stored : List Session) :
    cleanupRecoverySessions (cleanupRecoverySessions stored 3) 3 =
      cleanupRecoverySessions stored 3 := by
  by_cases hlt : 3 < (sortSessionsDesc ((sortSessionsDesc stored).filter
      (fun s => isRecoveryName s.name))).length
  · exact cleanup_eq_self_of_le _ 3 (cleanup_countP_le stored 3 hlt)
  · have h := cleanup_eq_self_of_le stored 3 (by rw [← recovery_length_eq]; omega)
    rw [h]
    exact h

lemma session_id_inj {l : List Session} (hnd : (l.map Session.id).Nodup)
    {a b : Session} (ha : a ∈ l) (hb : b ∈ l) (hid : a.id = b.id) : a = b := by
  rw [List.Nodup, List.pairwise_map] at hnd
  by_contra hne
  have hsym : Symmetric (fun a b : Session => a.id ≠ b.id) := by
    intro x y h he
    exact h he.symm
  exact hnd.forall hsym ha hb hne hid

/-- C8: pruning only removes snapshots of the given prefix family — assuming
the data model's unique snapshot ids, every non-matching stored snapshot
survives unchanged, and of the matching ones exactly the `n` newest by
timestamp remain (all of them when there are at most `n`). -/
theorem claim8_prune_frame (stored : List Session) (n : Nat)
    (hnd : (stored.map Session.id).Nodup) :
    ((cleanupRecoverySessions stored n).filter
        (fun s => !(isRecoveryName s.name))).Perm
      (stored.filter (fun s => !(isRecoveryName s.name))) ∧
    ∃ deleted : List Session,
      (stored.filter (fun s => isRecoveryName s.name)).Perm
        (((cleanupRecoverySessions stored n).filter
          (fun s => isRecoveryName s.name)) ++ deleted) ∧
      ((cleanupRecoverySessions stored n).filter
          (fun s => isRecoveryName s.name)).length
        = min n (stored.filter (fun s => isRecoveryName s.name)).length ∧
      ∀ d ∈ deleted, ∀ k ∈ (cleanupRecoverySessions stored n).filter
        (fun s => isRecoveryName s.name), d.timestamp ≤ k.timestamp := by
  by_cases hlt : n < (sortSessionsDesc ((sortSessionsDesc stored).filter
      (fun s => isRecoveryName s.name))).length
  case neg =>
    have heq := cleanup_eq_self_of_le stored n (by rw [← recovery_length_eq]; omega)
    rw [heq]
    have hle : (stored.filter (fun s => isRecoveryName s.name)).length ≤ n := by
      rw [← List.countP_eq_length_filter, ← recovery_length_eq]; omega
    refine ⟨List.Perm.refl _, [], by simp, ?_, by simp⟩
    omega
  case pos =>
    rw [cleanup_eq_filter stored n hlt]
    set m : Session → Bool := fun s => isRecoveryName s.name with hm
    set sorted := sortSessionsDesc stored with hsorted
    set recovery := sortSessionsDesc (sorted.filter m) with hrecovery
    set toDelete := recovery.drop n with htoDelete
    set keep := recovery.take n with hkeep
    set pred : Session → Bool := fun s => !(toDelete.any (fun ds => ds.id == s.id))
      with hpredd
    have hsorted_perm : sorted.Perm stored := sortSessionsDesc_perm stored
    have hrec_perm : recovery.Perm (sorted.filter m) := sortSessionsDesc_perm _
    have hstored_nd : stored.Nodup := List.Nodup.of_map _ hnd
    have hrec_nd : recovery.Nodup :=
      hrec_perm.symm.nodup ((hsorted_perm.symm.nodup hstored_nd).filter m)
    have hmem_rec : ∀ x ∈ recovery, x ∈ stored ∧ m x = true := by
      intro x hx
      rw [hrec_perm.mem_iff, List.mem_filter, hsorted_perm.mem_iff] at hx
      exact hx
    have hmem_del : ∀ x ∈ toDelete, x ∈ stored ∧ m x = true :=
      fun x hx => hmem_rec x (List.mem_of_mem_drop hx)
    have hdisj : keep.Disjoint toDelete :=
      List.disjoint_of_nodup_append (by rw [hkeep, htoDelete, List.take_append_drop]; exact hrec_nd)
    -- a session whose id matches a deleted one is that deleted session
    have hid_del : ∀ s ∈ stored, ∀ ds ∈ toDelete, (ds.id == s.id) = true → ds = s := by
      intro s hs ds hds hbeq
      exact session_id_inj hnd (hmem_del ds hds).1 hs (beq_iff_eq.mp hbeq)
    have hpredA : ∀ s ∈ sorted, m s = false → pred s = true := by
      intro s hs hms
      have : toDelete.any (fun ds => ds.id == s.id) = false := by
        rw [List.any_eq_false]
        intro ds hds hbeq
        have := hid_del s (hsorted_perm.mem_iff.mp hs) ds hds hbeq
        rw [← this] at hms
        rw [(hmem_del ds hds).2] at hms
        exact Bool.true_eq_false.mp hms
      simp [hpredd, this]
    have hpredB : ∀ k ∈ keep, pred k = true := by
      intro k hk
      have : toDelete.any (fun ds => ds.id == k.id) = false := by
        rw [List.any_eq_false]
        intro ds hds hbeq
        have hks : k ∈ stored := (hmem_rec k (List.mem_of_mem_take hk)).1
        have := hid_del k hks ds hds hbeq
        exact hdisj hk (this ▸ hds)
      simp [hpredd, this]
    have hpredC : ∀ ds ∈ toDelete, pred ds = false := by
      intro ds hds
      have : toDelete.any (fun d => d.id == ds.id) = true :=
        List.any_eq_true.mpr ⟨ds, hds, by simp⟩
      simp [hpredd, this]
    -- the kept matching sessions are a permutation of the newest n
    have hkept_eq : (sorted.filter pred).filter m = (sorted.filter m).filter pred := by
      rw [List.filter_filter, List.filter_filter]
      exact List.filter_congr (fun a _ => Bool.and_comm (m a) (pred a))
    have hkeep_filter : recovery.filter pred = keep := by
      conv_lhs => rw [← List.take_append_drop n recovery]
      rw [List.filter_append]
      rw [List.filter_eq_self.mpr hpredB,
        List.filter_eq_nil_iff.mpr (fun a ha => by rw [hpredC a ha]; exact Bool.false_ne_true),
        List.append_nil]
    have hkept_perm : ((sorted.filter pred).filter m).Perm keep := by
      rw [hkept_eq, ← hkeep_filter]
      exact hrec_perm.symm.filter pred
    refine ⟨?_, toDelete, ?_, ?_, ?_⟩
    · -- frame: non-matching sessions survive
      rw [List.filter_filter]
      have : sorted.filter (fun a => !(m a) && pred a) = sorted.filter (fun a => !(m a)) :=
        List.filter_congr (fun a ha => by
          cases hma : m a with
          | true => simp
          | false => simp [hpredA a ha hma])
      rw [this]
      exact hsorted_perm.filter _
    · -- the matching sessions split into kept ++ deleted
      have h1 : (stored.filter m).Perm (sorted.filter m) := (hsorted_perm.filter m).symm
      have h2 : (sorted.filter m).Perm recovery := hrec_perm.symm
      have h3 : recovery = keep ++ toDelete := by
        rw [hkeep, htoDelete, List.take_append_drop]
      have h4 : (keep ++ toDelete).Perm ((sorted.filter pred).filter m ++ toDelete) :=
        hkept_perm.symm.append_right toDelete
      exact h1.trans (h2.trans (by rw [h3]; exact h4))
    · -- exactly n newest remain
      have hlen1 : ((sorted.filter pred).filter m).length = keep.length :=
        hkept_perm.length_eq
      have hlen2 : (stored.filter m).length = recovery.length := by
        rw [(hsorted_perm.filter m).symm.length_eq, hrec_perm.length_eq]
      rw [hlen1, hlen2, hkeep, List.length_take]
    · -- every deleted snapshot is at most as new as every kept one
      intro d hd k hk
      have hk' : k ∈ keep := hkept_perm.mem_iff.mp hk
      have hpw := sortSessionsDesc_sorted (sorted.filter m)
      rw [← hrecovery, ← List.take_append_drop n recovery, List.pairwise_append] at hpw
      exact hpw.2.2 k hk' d hd

/-- Witness for C8: a concrete store with two recovery snapshots and one
user-named snapshot, pruned to one recovery snapshot — the user-named
snapshot survives. -/
theorem claim8_witness :
    (([⟨"1", "Recovery (a)", 5, [], []⟩, ⟨"2", "Recovery (b)", 3, [], []⟩,
        ⟨"3", "mine", 4, [], []⟩] : List Session).map Session.id).Nodup ∧
    ((cleanupRecoverySessions [⟨"1", "Recovery (a)", 5, [], []⟩,
        ⟨"2", "Recovery (b)", 3, [], []⟩, ⟨"3", "mine", 4, [], []⟩] 1).filter
        (fun s => !(isRecoveryName s.name))).Perm
      (([⟨"1", "Recovery (a)", 5, [], []⟩, ⟨"2", "Recovery (b)", 3, [], []⟩,
        ⟨"3", "mine", 4, [], []⟩] : List Session).filter
        (fun s => !(isRecoveryName s.name))) :=
  ⟨by decide,
    (claim8_prune_frame [⟨"1", "Recovery (a)", 5, [], []⟩,
      ⟨"2", "Recovery (b)", 3, [], []⟩, ⟨"3", "mine", 4, [], []⟩] 1 (by decide)).1⟩

lemma eligible_restorable {t : LiveCaptureTab} (h : eligibleTab t = true) :
    restorableUrlStr (t.url.getD "") = true := by
  cases hu : t.url with
  | none => simp [eligibleTab, eligibleCaptureUrl, hu] at h
  | some u =>
    simp only [eligibleTab, eligibleCaptureUrl, hu] at h
    simpa [hu] using h

lemma captureTabs_fst (env : CaptureEnv) (ts : List LiveCaptureTab) : ∀ g : GAcc,
    (captureTabs env g ts).1 = ts.filterMap captureTabRecord? := by
  induction ts with
  | nil => intro g; rfl
  | cons t ts ih =>
    intro g
    by_cases h : eligibleTab t = true
    · simp [captureTabs, h, captureTabRecord?, ih]
    · simp [captureTabs, Bool.of_not_eq_true h, captureTabRecord?,
        Bool.not_eq_true .. ▸ h, ih]

lemma captureWindows_fst (env : CaptureEnv) (ws : List LiveWindow) : ∀ g : GAcc,
    (captureWindows env g ws).1
      = (ws.map capturedWindowRecord).filter (fun wr => !wr.tabs.isEmpty) := by
  induction ws with
  | nil => intro g; rfl
  | cons w ws ih =>
    intro g
    simp only [captureWindows, captureTabs_fst, ih, List.map_cons, List.filter_cons,
      capturedWindowRecord]
    by_cases h : (w.tabs.filterMap captureTabRecord?).isEmpty = true
    · simp [h]
    · simp [h, Bool.not_eq_true .. ▸ h]

lemma mapAppendUrl_rest {m : GroupMap} {k : Nat} {u : String}
    (hq : RestMap m) (hu : restorableUrlStr u = true) : RestMap (mapAppendUrl m k u) := by
  intro p hp v hv
  rw [mapAppendUrl, List.mem_map] at hp
  obtain ⟨q, hmem, rfl⟩ := hp
  by_cases hk : q.1 = k
  · rw [if_pos hk] at hv
    rcases List.mem_append.mp hv with h | h
    · exact hq q hmem v h
    · rw [List.mem_singleton.mp h]; exact hu
  · rw [if_neg hk] at hv
    exact hq q hmem v hv

lemma memoizeGroup_rest {env : CaptureEnv} {g : GAcc} {gid : Nat}
    (hq : RestMap g.gmap) : RestMap (memoizeGroup env g gid).gmap := by
  rw [memoizeGroup]
  split
  · exact hq
  · cases hget : env.getGroup gid with
    | some gm =>
      intro p hp v hv
      rcases List.mem_append.mp hp with h | h
      · exact hq p h v hv
      · rw [List.mem_singleton.mp h] at hv
        simp [mkGroupRecord] at hv
    | none => exact hq

lemma appendUrlStep_rest {g1 : GAcc} {gid : Nat} {u : String}
    (hq : RestMap g1.gmap) (hu : restorableUrlStr u = true) :
    RestMap (appendUrlStep g1 gid u).gmap := by
  rw [appendUrlStep]
  split
  · split
    · exact mapAppendUrl_rest hq hu
    · exact hq
  · exact hq

lemma captureGroupStep_rest {env : CaptureEnv} {g : GAcc} {t : LiveCaptureTab}
    (helig : eligibleTab t = true) (hq : RestMap g.gmap) :
    RestMap (captureGroupStep env g t).gmap := by
  rw [captureGroupStep]
  cases t.groupId with
  | none => exact hq
  | some gid => exact appendUrlStep_rest (memoizeGroup_rest hq) (eligible_restorable helig)

lemma captureTabs_rest (env : CaptureEnv) (ts : List LiveCaptureTab) : ∀ g : GAcc,
    RestMap g.gmap → RestMap (captureTabs env g ts).2.gmap := by
  induction ts with
  | nil => intro g hq; exact hq
  | cons t ts ih =>
    intro g hq
    by_cases h : eligibleTab t = true
    · simp only [captureTabs, h, if_true]
      exact ih _ (captureGroupStep_rest h hq)
    · simp only [captureTabs, h, if_false]
      exact ih _ hq

lemma captureWindows_rest (env : CaptureEnv) (ws : List LiveWindow) : ∀ g : GAcc,
    RestMap g.gmap → RestMap (captureWindows env g ws).2.gmap := by
  induction ws with
  | nil => intro g hq; exact hq
  | cons w ws ih =>
    intro g hq
    exact ih _ (captureTabs_rest env w.tabs g hq)

/-- C4: a tab whose URL is absent or internal-scheme appears in no
WindowRecord and contributes to no GroupRecord's `tabUrls`; a window all of
whose tabs were skipped is omitted from the snapshot entirely.  The captured
window list is exactly the per-window eligible-tab records with empty windows
filtered out. -/
theorem claim4_capture_skips (env : CaptureEnv) (nm idStr : String) (ts : Nat)
    (ws : List LiveWindow) :
    (captureSession env nm idStr ts ws).windows
      = (ws.map capturedWindowRecord).filter (fun wr => !wr.tabs.isEmpty) ∧
    (∀ wr ∈ (captureSession env nm idStr ts ws).windows, ∀ tr ∈ wr.tabs,
      restorableUrlStr tr.url = true) ∧
    (∀ gr ∈ (captureSession env nm idStr ts ws).groups, ∀ u ∈ gr.tabUrls,
      restorableUrlStr u = true) := by
  refine ⟨captureWindows_fst env ws _, ?_, ?_⟩
  · intro wr hwr tr htr
    rw [show (captureSession env nm idStr ts ws).windows
        = (captureWindows env ⟨[], []⟩ ws).1 from rfl, captureWindows_fst] at hwr
    obtain ⟨w, _, rfl⟩ := List.mem_map.mp (List.mem_of_mem_filter hwr)
    obtain ⟨t, _, hsome⟩ := List.mem_filterMap.mp htr
    rw [captureTabRecord?] at hsome
    by_cases helig : eligibleTab t = true
    · rw [if_pos helig] at hsome
      rw [← Option.some_inj.mp hsome]
      exact eligible_restorable helig
    · rw [if_neg helig] at hsome
      exact absurd hsome (Option.noConfusion)
  · intro gr hgr u hu
    have hrest : RestMap (captureWindows env ⟨[], []⟩ ws).2.gmap :=
      captureWindows_rest env ws ⟨[], []⟩ (fun p hp => absurd hp (List.not_mem_nil p))
    obtain ⟨p, hp, rfl⟩ := List.mem_map.mp hgr
    exact hrest p hp u hu

lemma captureTabs_skip_all (env : CaptureEnv) (ts : List LiveCaptureTab)
    (h : ∀ t ∈ ts, eligibleTab t = false) (g : GAcc) : captureTabs env g ts = ([], g) := by
  induction ts with
  | nil => rfl
  | cons t ts ih =>
    have ht := h t (List.mem_cons_self t ts)
    simp only [captureTabs, ht, Bool.false_eq_true, if_false]
    exact ih (fun x hx => h x (List.mem_cons_of_mem t hx))

lemma captureWindows_skip_all (env : CaptureEnv) (ws : List LiveWindow)
    (h : ∀ w ∈ ws, ∀ t ∈ w.tabs, eligibleTab t = false) (g : GAcc) :
    captureWindows env g ws = ([], g) := by
  induction ws with
  | nil => rfl
  | cons w ws ih =>
    simp only [captureWindows,
      captureTabs_skip_all env w.tabs (h w (List.mem_cons_self w ws)) g]
    simp only [List.isEmpty_nil, if_true]
    exact ih (fun x hx => h x (List.mem_cons_of_mem w hx))

/-- C9: capture applies no validity check at save time — when every enumerated
tab is skipped, the captured snapshot has no windows and no groups, fails
`validateSession`, and is nevertheless appended to the stored list by
`saveCurrentSession` (subject only to quota); only `restoreSession` rejects it,
as `InvalidSession`, with no live mutation. -/
theorem claim9_empty_capture_saved (env : CaptureEnv) (envR : RestoreEnv)
    (nm idStr : String) (ts : Nat) (ws : List LiveWindow)
    (stored : List Session) (bytesInUse : Nat)
    (hskip : ∀ w ∈ ws, ∀ t ∈ w.tabs, eligibleTab t = false)
    (hquota : ¬ ((estimateSessionSize (captureSession env nm idStr ts ws) : Int)
      > (STORAGE_QUOTA : Int) - (bytesInUse : Int)))
    (hid : ∀ s ∈ stored, s.id ≠ idStr) :
    (captureSession env nm idStr ts ws).windows = [] ∧
    (captureSession env nm idStr ts ws).groups = [] ∧
    validateSession (captureSession env nm idStr ts ws) = false ∧
    saveCurrentSession env nm idStr ts ws stored bytesInUse
      = (stored ++ [captureSession env nm idStr ts ws], none) ∧
    restoreSession (stored ++ [captureSession env nm idStr ts ws]) envR idStr
      = ([], some RestoreError.invalidSession) := by
  have hcap : captureSession env nm idStr ts ws = ⟨idStr, nm, ts, [], []⟩ := by
    rw [captureSession, captureWindows_skip_all env ws hskip]
    rfl
  refine ⟨by rw [hcap], by rw [hcap], by rw [hcap]; rfl, ?_, ?_⟩
  · rw [saveCurrentSession, saveSessionData]
    simp only [if_neg hquota]
  · rw [restoreSession]
    set snap := captureSession env nm idStr ts ws with hsnap
    have hsnapid : snap.id = idStr := by rw [hcap]
    have hfind : (getAllSessions (stored ++ [snap])).find? (fun s => s.id == idStr)
        = some snap := by
      have hperm := sortSessionsDesc_perm (stored ++ [snap])
      have hex : ∃ x ∈ getAllSessions (stored ++ [snap]), (x.id == idStr) = true := by
        refine ⟨snap, ?_, by rw [hsnapid]; exact beq_self_eq_true idStr⟩
        rw [getAllSessions, hperm.mem_iff, List.mem_append]
        exact Or.inr (List.mem_singleton.mpr rfl)
      obtain ⟨a, hfind', hpa⟩ := find?_of_exists hex
      have ha : a ∈ stored ++ [snap] := by
        rw [← hperm.mem_iff]
        exact List.mem_of_find?_eq_some hfind'
      have haeq : a = snap := by
        rcases List.mem_append.mp ha with h | h
        · exact absurd (beq_iff_eq.mp hpa) (hid a h)
        · exact List.mem_singleton.mp h
      rw [hfind', haeq]
    rw [hfind]
    have hval : validateSession snap = false := by rw [hcap]; rfl
    simp only [hval, Bool.false_eq_true, if_false]

/-- Witness for C9: one window whose only tab is an internal-scheme page —
the save still succeeds and appends the empty snapshot. -/
theorem claim9_witness :
    (∀ w ∈ [(⟨1, [⟨some "chrome://settings", none, false, false, none⟩]⟩ : LiveWindow)],
      ∀ t ∈ w.tabs, eligibleTab t = false) ∧
    (¬ ((estimateSessionSize (captureSession ⟨fun _ => none⟩ "n" "1" 0
        [⟨1, [⟨some "chrome://settings", none, false, false, none⟩]⟩]) : Int)
      > (STORAGE_QUOTA : Int) - ((0 : Nat) : Int))) ∧
    (∀ s ∈ ([] : List Session), s.id ≠ "1") ∧
    saveCurrentSession ⟨fun _ => none⟩ "n" "1" 0
        [⟨1, [⟨some "chrome://settings", none, false, false, none⟩]⟩] [] 0
      = ([captureSession ⟨fun _ => none⟩ "n" "1" 0
          [⟨1, [⟨some "chrome://settings", none, false, false, none⟩]⟩]], none) :=
  ⟨by decide, by decide, by decide,
    (claim9_empty_capture_saved ⟨fun _ => none⟩
      ⟨fun _ _ => none, fun _ _ => false, fun _ _ => [], fun _ => none⟩ "n" "1" 0
      [⟨1, [⟨some "chrome://settings", none, false, false, none⟩]⟩] [] 0
      (by decide) (by decide) (by decide)).2.2.2.1⟩

lemma mapGet_append (m m' : GroupMap) (k : Nat) :
    mapGet (m ++ m') k = (mapGet m k).or (mapGet m' k) := by
  induction m with
  | nil => simp [mapGet, Option.none_or]
  | cons p m ih =>
    by_cases h : p.1 = k
    · simp [mapGet, h]
    · simp [mapGet, h, ih]

lemma mapGet_mapAppendUrl (m : GroupMap) (k : Nat) (u : String) (j : Nat) :
    mapGet (mapAppendUrl m k u) j =
      if j = k then
        (mapGet m j).map (fun r =>
          ⟨r.originalId, r.title, r.color, r.collapsed, r.tabUrls ++ [u]⟩)
      else mapGet m j := by
  induction m with
  | nil => simp [mapGet, mapAppendUrl]
  | cons p m ih =>
    simp only [mapAppendUrl, List.map_cons] at ih ⊢
    by_cases hjk : j = k
    · subst hjk
      by_cases hpj : p.1 = j
      · simp [mapGet, hpj]
      · simp [mapGet, hpj, ih]
    · by_cases hpk : p.1 = k
      · have hpj : ¬ p.1 = j := fun he => hjk (he.symm.trans hpk)
        have hkj : ¬ k = j := fun he => hjk he.symm
        simp [mapGet, hpk, hpj, hjk, hkj, ih]
      · by_cases hpj : p.1 = j
        · simp [mapGet, hpk, hpj, hjk]
        · simp [mapGet, hpk, hpj, hjk, ih]

lemma memoizeGroup_traceInv {env : CaptureEnv}
    (hsucc : ∀ gid, (env.getGroup gid).isSome = true) {g : GAcc}
    (hinv : TraceInv g) (gid : Nat) : TraceInv (memoizeGroup env g gid) := by
  rw [memoizeGroup]
  split
  · exact hinv
  · rename_i habs
    cases hget : env.getGroup gid with
    | none =>
      have := hsucc gid
      rw [hget] at this
      exact absurd this (by simp)
    | some gm =>
      have hnotin : gid ∉ g.trace := fun hmem => habs (hinv.2 gid hmem)
      constructor
      · exact List.Nodup.append hinv.1 (List.nodup_singleton gid)
          (fun a ha hb => hnotin ((List.mem_singleton.mp hb) ▸ ha))
      · intro k hk
        rw [mapGet_append]
        rcases List.mem_append.mp hk with h | h
        · have := hinv.2 k h
          cases hmk : mapGet g.gmap k with
          | none => rw [hmk] at this; simp at this
          | some r => simp [hmk]
        · rw [List.mem_singleton.mp h]
          cases hmk : mapGet g.gmap gid with
          | none => simp [mapGet]
          | some r => simp [hmk]

lemma appendUrlStep_traceInv {g1 : GAcc} (hinv : TraceInv g1) (gid : Nat) (u : String) :
    TraceInv (appendUrlStep g1 gid u) := by
  rw [appendUrlStep]
  split
  · split
    · refine ⟨hinv.1, ?_⟩
      intro k hk
      rw [mapGet_mapAppendUrl]
      split
      · cases hmg : mapGet g1.gmap k with
        | none =>
          have := hinv.2 k hk
          rw [hmg] at this
          simp at this
        | some r => simp
      · exact hinv.2 k hk
    · exact hinv
  · exact hinv

lemma captureGroupStep_traceInv {env : CaptureEnv}
    (hsucc : ∀ gid, (env.getGroup gid).isSome = true) {g : GAcc}
    (hinv : TraceInv g) (t : LiveCaptureTab) : TraceInv (captureGroupStep env g t) := by
  rw [captureGroupStep]
  cases t.groupId with
  | none => exact hinv
  | some gid => exact appendUrlStep_traceInv (memoizeGroup_traceInv hsucc hinv gid) gid _

lemma captureTabs_traceInv {env : CaptureEnv}
    (hsucc : ∀ gid, (env.getGroup gid).isSome = true) (ts : List LiveCaptureTab) :
    ∀ g : GAcc, TraceInv g → TraceInv (captureTabs env g ts).2 := by
  induction ts with
  | nil => intro g hinv; exact hinv
  | cons t ts ih =>
    intro g hinv
    by_cases h : eligibleTab t = true
    · simp only [captureTabs, h, if_true]
      exact ih _ (captureGroupStep_traceInv hsucc hinv t)
    · simp only [captureTabs, h, if_false]
      exact ih _ hinv

lemma captureWindows_traceInv {env : CaptureEnv}
    (hsucc : ∀ gid, (env.getGroup gid).isSome = true) (ws : List LiveWindow) :
    ∀ g : GAcc, TraceInv g → TraceInv (captureWindows env g ws).2 := by
  induction ws with
  | nil => intro g hinv; exact hinv
  | cons w ws ih =>
    intro g hinv
    exact ih _ (captureTabs_traceInv hsucc w.tabs g hinv)

lemma extendEntry_nil (env : CaptureEnv) (prev : Option GroupRecord) (gid : Nat) :
    extendEntry env prev gid [] = prev := by
  cases prev with
  | none => simp [extendEntry]
  | some gr => simp [extendEntry]

lemma extendEntry_comp (env : CaptureEnv) (prev : Option GroupRecord) (gid : Nat)
    (u1 u2 : List String) :
    extendEntry env (extendEntry env prev gid u1) gid u2
      = extendEntry env prev gid (u1 ++ u2) := by
  cases prev with
  | some gr => simp [extendEntry]
  | none =>
    by_cases hu1 : u1 = []
    · subst hu1; simp [extendEntry]
    · cases hget : env.getGroup gid with
      | none => simp [extendEntry, hget, hu1]
      | some gm => simp [extendEntry, hget, hu1]

lemma eligible_url_some {t : LiveCaptureTab} (h : eligibleTab t = true) :
    ∃ u₀, t.url = some u₀ := by
  cases hu : t.url with
  | none => simp [eligibleTab, eligibleCaptureUrl, hu] at h
  | some u => exact ⟨u, rfl⟩

lemma eligible_url_ne {t : LiveCaptureTab} (h : eligibleTab t = true) :
    (t.url.getD "" != "") = true := by
  have := eligible_restorable h
  rw [restorableUrlStr] at this
  simp only [Bool.and_eq_true] at this
  exact this.1.1

lemma tabMemberUrls_cons_not_elig {t : LiveCaptureTab} {ts : List LiveCaptureTab}
    {gid : Nat} (h : eligibleTab t = false) :
    tabMemberUrls (t :: ts) gid = tabMemberUrls ts gid := by
  simp [tabMemberUrls, List.filter_cons, h]

lemma tabMemberUrls_cons_elig_other {t : LiveCaptureTab} {ts : List LiveCaptureTab}
    {gid : Nat} (helig : eligibleTab t = true) (hne : t.groupId ≠ some gid) :
    tabMemberUrls (t :: ts) gid = tabMemberUrls ts gid := by
  simp [tabMemberUrls, List.filter_cons, helig, List.filterMap_cons, hne]

lemma tabMemberUrls_cons_elig_same {t : LiveCaptureTab} {ts : List LiveCaptureTab}
    {gid : Nat} {u₀ : String} (helig : eligibleTab t = true)
    (hgid : t.groupId = some gid) (hurl : t.url = some u₀) :
    tabMemberUrls (t :: ts) gid = u₀ :: tabMemberUrls ts gid := by
  simp [tabMemberUrls, List.filter_cons, helig, List.filterMap_cons, hgid, hurl]

lemma memoizeGroup_mapGet_other (env : CaptureEnv) (g : GAcc) {gid' gid : Nat}
    (h : gid' ≠ gid) : mapGet (memoizeGroup env g gid').gmap gid = mapGet g.gmap gid := by
  rw [memoizeGroup]
  split
  · rfl
  · cases hget : env.getGroup gid' with
    | some gm =>
      show mapGet (g.gmap ++ [(gid', mkGroupRecord gm)]) gid = mapGet g.gmap gid
      rw [mapGet_append]
      rw [show mapGet [(gid', mkGroupRecord gm)] gid = none from by simp [mapGet, h]]
      exact Option.or_none
    | none => rfl

lemma appendUrlStep_mapGet_other (g1 : GAcc) {gid' gid : Nat} (u : String)
    (h : gid' ≠ gid) : mapGet (appendUrlStep g1 gid' u).gmap gid = mapGet g1.gmap gid := by
  rw [appendUrlStep]
  split
  · split
    · show mapGet (mapAppendUrl g1.gmap gid' u) gid = mapGet g1.gmap gid
      rw [mapGet_mapAppendUrl, if_neg (fun he => h he.symm)]
    · rfl
  · rfl

lemma captureGroupStep_mapGet_other (env : CaptureEnv) {g : GAcc} {t : LiveCaptureTab}
    {gid : Nat} (hne : t.groupId ≠ some gid) :
    mapGet (captureGroupStep env g t).gmap gid = mapGet g.gmap gid := by
  rw [captureGroupStep]
  cases hg : t.groupId with
  | none => rfl
  | some gid' =>
    have h : gid' ≠ gid := fun he => hne (by rw [hg, he])
    rw [appendUrlStep_mapGet_other _ _ h, memoizeGroup_mapGet_other _ _ h]

lemma captureGroupStep_mapGet_same (env : CaptureEnv) {g : GAcc} {t : LiveCaptureTab}
    {gid : Nat} (hgid : t.groupId = some gid) (hune : (t.url.getD "" != "") = true) :
    mapGet (captureGroupStep env g t).gmap gid
      = extendEntry env (mapGet g.gmap gid) gid [t.url.getD ""] := by
  simp only [captureGroupStep, hgid]
  cases hprev : mapGet g.gmap gid with
  | some gr =>
    have hmg : memoizeGroup env g gid = g := by rw [memoizeGroup]; simp [hprev]
    rw [hmg]
    simp only [appendUrlStep, hprev, hune, if_true]
    rw [mapGet_mapAppendUrl, if_pos rfl, hprev]
    simp [extendEntry]
  | none =>
    cases hget : env.getGroup gid with
    | some gm =>
      have hmg : memoizeGroup env g gid
          = ⟨g.gmap ++ [(gid, mkGroupRecord gm)], g.trace ++ [gid]⟩ := by
        rw [memoizeGroup]
        simp [hprev, hget]
      rw [hmg]
      have hget1 : mapGet (g.gmap ++ [(gid, mkGroupRecord gm)]) gid
          = some (mkGroupRecord gm) := by
        rw [mapGet_append, hprev, Option.none_or]
        simp [mapGet]
      simp only [appendUrlStep, hget1, hune, if_true]
      rw [mapGet_mapAppendUrl, if_pos rfl, hget1]
      simp [extendEntry, mkGroupRecord, hget]
    | none =>
      have hmg : memoizeGroup env g gid = ⟨g.gmap, g.trace ++ [gid]⟩ := by
        rw [memoizeGroup]
        simp [hprev, hget]
      rw [hmg]
      simp only [appendUrlStep, hprev]
      simp [extendEntry, hget]

lemma captureTabs_gmap (env : CaptureEnv) (ts : List LiveCaptureTab) :
    ∀ (g : GAcc) (gid : Nat),
      mapGet (captureTabs env g ts).2.gmap gid
        = extendEntry env (mapGet g.gmap gid) gid (tabMemberUrls ts gid) := by
  induction ts with
  | nil =>
    intro g gid
    rw [show tabMemberUrls [] gid = [] from rfl, extendEntry_nil]
    rfl
  | cons t ts ih =>
    intro g gid
    by_cases helig : eligibleTab t = true
    · simp only [captureTabs, helig, if_true]
      rw [ih]
      by_cases hgid : t.groupId = some gid
      · obtain ⟨u₀, hurl⟩ := eligible_url_some helig
        rw [captureGroupStep_mapGet_same env hgid (eligible_url_ne helig),
          extendEntry_comp, tabMemberUrls_cons_elig_same helig hgid hurl]
        simp [hurl]
      · rw [captureGroupStep_mapGet_other env hgid,
          tabMemberUrls_cons_elig_other helig hgid]
    · simp only [captureTabs, helig, Bool.false_eq_true, if_false]
      rw [ih, tabMemberUrls_cons_not_elig (Bool.not_eq_true _ ▸ helig)]

lemma memberUrls_cons (w : LiveWindow) (ws : List LiveWindow) (gid : Nat) :
    memberUrls (w :: ws) gid = tabMemberUrls w.tabs gid ++ memberUrls ws gid := by
  simp [memberUrls]

lemma captureWindows_gmap (env : CaptureEnv) (ws : List LiveWindow) :
    ∀ (g : GAcc) (gid : Nat),
      mapGet (captureWindows env g ws).2.gmap gid
        = extendEntry env (mapGet g.gmap gid) gid (memberUrls ws gid) := by
  induction ws with
  | nil =>
    intro g gid
    rw [show memberUrls [] gid = [] from rfl, extendEntry_nil]
    rfl
  | cons w ws ih =>
    intro g gid
    show mapGet (captureWindows env (captureTabs env g w.tabs).2 ws).2.gmap gid = _
    rw [ih, captureTabs_gmap, extendEntry_comp, memberUrls_cons]

lemma mapGet_mem {m : GroupMap} {k : Nat} {r : GroupRecord} (h : mapGet m k = some r) :
    r ∈ m.map (fun p => p.2) := by
  induction m with
  | nil => simp [mapGet] at h
  | cons p m ih =>
    rw [mapGet] at h
    by_cases hpk : p.1 = k
    · rw [if_pos hpk] at h
      rw [List.map_cons]
      exact (Option.some_inj.mp h) ▸ List.mem_cons_self _ _
    · rw [if_neg hpk] at h
      exact List.mem_cons_of_mem _ (ih h)

/-- Counterexample to C5 as stated: when the metadata fetch for a group keeps
failing, the fetch is retried for every member tab of that group — here group
7 has two eligible member tabs and `chrome.tabGroups.get` is called twice, so
the fetch is not "at most once per group". -/
theorem claim5_counterexample :
    captureFetchTrace ⟨fun _ => none⟩
      [⟨1, [⟨some "https://a/", none, false, false, some 7⟩,
            ⟨some "https://b/", none, false, false, some 7⟩]⟩] = [7, 7] ∧
    ¬ (captureFetchTrace ⟨fun _ => none⟩
      [⟨1, [⟨some "https://a/", none, false, false, some 7⟩,
            ⟨some "https://b/", none, false, false, some 7⟩]⟩]).Nodup := by
  constructor
  · rfl
  · decide

/-- C5 (amended): provided every group-metadata fetch succeeds, the metadata
of each group is fetched at most once during a capture pass (the fetch trace
has no duplicates), and every eligible member tab's URL is accumulated, in
enumeration order, into that group's GroupRecord `tabUrls`. -/
theorem claim5_group_memoized (env : CaptureEnv) (nm idStr : String) (ts : Nat)
    (ws : List LiveWindow) (hsucc : ∀ gid, (env.getGroup gid).isSome = true) :
    (captureFetchTrace env ws).Nodup ∧
    (∀ gid gm, env.getGroup gid = some gm → memberUrls ws gid ≠ [] →
      ∃ gr ∈ (captureSession env nm idStr ts ws).groups,
        gr.originalId = gm.id ∧ gr.title = optStrOr gm.title "Untitled Group" ∧
        gr.color = optStrOr gm.color "grey" ∧ gr.collapsed = gm.collapsed ∧
        gr.tabUrls = memberUrls ws gid) := by
  constructor
  · exact (captureWindows_traceInv hsucc ws ⟨[], []⟩
      ⟨List.nodup_nil, fun gid h => absurd h (List.not_mem_nil gid)⟩).1
  · intro gid gm hget hne
    have hchar := captureWindows_gmap env ws ⟨[], []⟩ gid
    rw [show mapGet (⟨[], []⟩ : GAcc).gmap gid = none from rfl] at hchar
    rw [extendEntry] at hchar
    rw [if_neg hne, hget] at hchar
    refine ⟨⟨gm.id, optStrOr gm.title "Untitled Group", optStrOr gm.color "grey",
      gm.collapsed, memberUrls ws gid⟩, ?_, rfl, rfl, rfl, rfl, rfl⟩
    exact mapGet_mem hchar

/-- Witness for the amended C5: a group with two member tabs, an
always-successful adapter — the fetch trace is duplicate-free and the group
record accumulates both URLs. -/
theorem claim5_witness :
    (captureFetchTrace ⟨fun g => some ⟨g, some "G", some "blue", false⟩⟩
      [⟨1, [⟨some "https://a/", none, false, false, some 7⟩,
            ⟨some "https://b/", none, false, false, some 7⟩]⟩]).Nodup ∧
    (∃ gr ∈ (captureSession ⟨fun g => some ⟨g, some "G", some "blue", false⟩⟩ "n" "1" 0
        [⟨1, [⟨some "https://a/", none, false, false, some 7⟩,
              ⟨some "https://b/", none, false, false, some 7⟩]⟩]).groups,
      gr.originalId = (7 : Nat) ∧ gr.title = optStrOr (some "G") "Untitled Group" ∧
      gr.color = optStrOr (some "blue") "grey" ∧ gr.collapsed = false ∧
      gr.tabUrls = memberUrls
        [⟨1, [⟨some "https://a/", none, false, false, some 7⟩,
              ⟨some "https://b/", none, false, false, some 7⟩]⟩] 7) :=
  ⟨(claim5_group_memoized ⟨fun g => some ⟨g, some "G", some "blue", false⟩⟩ "n" "1" 0
      [⟨1, [⟨some "https://a/", none, false, false, some 7⟩,
            ⟨some "https://b/", none, false, false, some 7⟩]⟩] (fun _ => rfl)).1,
    (claim5_group_memoized ⟨fun g => some ⟨g, some "G", some "blue", false⟩⟩ "n" "1" 0
      [⟨1, [⟨some "https://a/", none, false, false, some 7⟩,
            ⟨some "https://b/", none, false, false, some 7⟩]⟩] (fun _ => rfl)).2
      7 ⟨7, some "G", some "blue", false⟩ rfl (by decide)⟩

/-- Counterexample to C2 as stated: on a valid two-window snapshot, a window
creation that fails in the live environment (second window here) aborts the
whole restore with a generic failure — an outright failure that is not a
validation failure and that occurs after a live mutation (the first window
was already created). -/
theorem claim2_counterexample :
    validateSession ⟨"1", "s", 0,
      [⟨1, [⟨"https://a/", "t", false, false, none⟩]⟩,
       ⟨2, [⟨"https://b/", "t", false, false, none⟩]⟩], []⟩ = true ∧
    restoreSession [⟨"1", "s", 0,
        [⟨1, [⟨"https://a/", "t", false, false, none⟩]⟩,
         ⟨2, [⟨"https://b/", "t", false, false, none⟩]⟩], []⟩]
      ⟨fun idx _ => if idx = 0 then some 10 else none, fun _ _ => true,
        fun _ _ => [], fun _ => some []⟩ "1"
      = ([Mutation.createdWindow 10 "https://a/"], some RestoreError.restoreFailed) := by
  constructor
  · rfl
  · rfl

/-- C2 (amended): `restoreSession` fails with `SessionNotFound` when the id
does not resolve and with `InvalidSession` when validation fails, both before
any live-environment mutation; a window with zero restorable URLs is skipped,
contributing no mutations, and processing continues with the remaining
windows.  (An adapter failure while creating a window or re-querying tabs
can additionally abort the whole restore — see the counterexample.) -/
theorem claim2_restore_errors (stored : List Session) (env : RestoreEnv) (sid : String) :
    ((getAllSessions stored).find? (fun s => s.id == sid) = none →
      restoreSession stored env sid = ([], some RestoreError.sessionNotFound)) ∧
    (∀ s, (getAllSessions stored).find? (fun s => s.id == sid) = some s →
      validateSession s = false →
      restoreSession stored env sid = ([], some RestoreError.invalidSession)) ∧
    (∀ (groups : List GroupRecord) (idx : Nat) (wd : WindowRecord)
        (rest : List WindowRecord), restorableTabUrls wd = [] →
      restoreWindows env groups (wd :: rest) idx
        = restoreWindows env groups rest (idx + 1)) := by
  refine ⟨?_, ?_, ?_⟩
  · intro h
    simp only [restoreSession, h]
  · intro s hfind hval
    simp only [restoreSession, hfind, hval, Bool.false_eq_true, if_false]
  · intro groups idx wd rest h
    have hw : restoreWindow env idx groups wd = ([], false) := by
      rw [restoreWindow, h]
    simp only [restoreWindows, hw, Bool.false_eq_true, if_false, List.nil_append,
      Prod.mk.eta]

/-- Witness for the amended C2: an unresolvable id yields `SessionNotFound`
with no mutations. -/
theorem claim2_witness :
    (getAllSessions []).find? (fun s => s.id == "1") = none ∧
    restoreSession [] ⟨fun _ _ => none, fun _ _ => false, fun _ _ => [],
        fun _ => none⟩ "1"
      = ([], some RestoreError.sessionNotFound) :=
  ⟨rfl, (claim2_restore_errors [] ⟨fun _ _ => none, fun _ _ => false, fun _ _ => [],
    fun _ => none⟩ "1").1 rfl⟩

lemma undoGroupEvents_not_set (existingTabs : List UndoLiveTab)
    (savedTabs : List UndoTabState) (g : UndoGroupState) :
    ∀ e ∈ undoGroupEvents existingTabs savedTabs g, e.isSetHistory = false := by
  intro e he
  simp only [undoGroupEvents] at he
  split at he
  · simp at he
  · rw [List.mem_singleton.mp he]
    rfl

lemma undoWindowGroups_not_set (env : UndoEnv) (wid : Nat)
    (savedTabs : List UndoTabState) (gs : List UndoGroupState) : ∀ callIdx : Nat,
    ∀ e ∈ (undoWindowGroups env wid savedTabs gs callIdx).1, e.isSetHistory = false := by
  induction gs with
  | nil => intro callIdx e he; simp [undoWindowGroups] at he
  | cons g gs ih =>
    intro callIdx e he
    rw [undoWindowGroups] at he
    split at he
    · simp at he
    · rcases List.mem_append.mp he with h | h
      · exact undoGroupEvents_not_set _ _ _ e h
      · exact ih (callIdx + 1) e h

lemma undoWindow_not_set (env : UndoEnv) (ws : UndoWindowState) :
    ∀ e ∈ (undoWindow env ws).1, e.isSetHistory = false := by
  intro e he
  rw [undoWindow] at he
  split at he
  · split at he
    · simp at he
    · rcases List.mem_append.mp he with h | h
      · obtain ⟨t, _, hsome⟩ := List.mem_filterMap.mp h
        by_cases hg : t.grouped = true
        · rw [if_pos hg] at hsome
          rw [← Option.some_inj.mp hsome]
          rfl
        · rw [if_neg hg] at hsome
          exact absurd hsome Option.noConfusion
      · exact undoWindowGroups_not_set env ws.id ws.tabs ws.groups 1 e h
  · simp at he

lemma undoWindowsList_not_set (env : UndoEnv) (wss : List UndoWindowState) :
    ∀ e ∈ (undoWindowsList env wss).1, e.isSetHistory = false := by
  induction wss with
  | nil => intro e he; simp [undoWindowsList] at he
  | cons w rest ih =>
    intro e he
    rw [undoWindowsList] at he
    split at he
    · exact undoWindow_not_set env w e he
    · rcases List.mem_append.mp he with h | h
      · exact undoWindow_not_set env w e h
      · exact ih e h

/-- C10: on a non-empty history, `performUndo` removes the popped entry and
persists the shortened history as its very first effect, before any
live-environment replay — the rest of the event trace contains no storage
write, so the popped entry is consumed exactly once and is gone even when the
replay aborts partway. -/
theorem claim10_undo_pops_before_replay (history : List UndoEntry) (env : UndoEnv)
    (hne : history ≠ []) :
    (performUndo history env).storedHistory = history.dropLast ∧
    (performUndo history env).events.head?
      = some (UndoEvent.setHistory history.dropLast) ∧
    (∀ e ∈ (performUndo history env).events.tail, e.isSetHistory = false) := by
  cases hlast : history.getLast? with
  | none => exact absurd (List.getLast?_eq_none_iff.mp hlast) hne
  | some lastState =>
    refine ⟨?_, ?_, ?_⟩
    · simp [performUndo, hlast]
    · simp [performUndo, hlast]
    · intro e he
      simp only [performUndo, hlast, List.tail_cons] at he
      exact undoWindowsList_not_set env lastState.previousGroups.windows e he

/-- Witness for C10: a one-entry history against an environment whose windows
are all gone — the history is persisted shortened before (trivial) replay. -/
theorem claim10_witness :
    ([(⟨"a", 0, ⟨[]⟩⟩ : UndoEntry)] ≠ []) ∧
    (performUndo [⟨"a", 0, ⟨[]⟩⟩]
      ⟨fun _ => false, fun _ _ => none⟩).storedHistory = [] ∧
    (performUndo [⟨"a", 0, ⟨[]⟩⟩]
      ⟨fun _ => false, fun _ _ => none⟩).events.head?
      = some (UndoEvent.setHistory []) :=
  ⟨by decide,
    (claim10_undo_pops_before_replay [⟨"a", 0, ⟨[]⟩⟩]
      ⟨fun _ => false, fun _ _ => none⟩ (by decide)).1,
    (claim10_undo_pops_before_replay [⟨"a", 0, ⟨[]⟩⟩]
      ⟨fun _ => false, fun _ _ => none⟩ (by decide)).2.1⟩

end TabOrganizer
